import Mathlib

/-!
Shallow embedding of the inspect service's dispatch core:
the priority queue scheduler (src/lib/queue.js), the per-bot session
dispatcher (src/lib/bot.js), the in-memory result caches
(src/lib/memory_cache.js and the bounded variant shipped with the entry
point), and the HTTP entry-point decision logic (the `/inspect` route and
`handleJob`).  JavaScript objects and `Map`s are modelled as
insertion-ordered association lists, numbers as `Int`/`ℤ`/`ℚ`.
-/

namespace Inspect

/-- JS object / `Map` read: first binding of the key, if any. -/
def mapGet {V : Type} : List (String × V) → String → Option V
  | [], _ => none
  | (k', v) :: rest, k => if k' = k then some v else mapGet rest k

/-- JS `Map.set` / property assignment: an existing key keeps its
insertion position and gets the new value; a new key is appended. -/
def mapSet {V : Type} : List (String × V) → String → V → List (String × V)
  | [], k, v => [(k, v)]
  | (k', v') :: rest, k, v =>
      if k' = k then (k, v) :: rest else (k', v') :: mapSet rest k v

/-- JS `Map.delete` / `delete obj[k]`: removes the binding of the key. -/
def mapDelete {V : Type} : List (String × V) → String → List (String × V)
  | [], _ => []
  | (k', v') :: rest, k => if k' = k then rest else (k', v') :: mapDelete rest k

namespace Queue

/-- one element of a priority lane, as pushed by `addJob` in queue.js:
`{data: link, max_attempts, attempts: 0, ip: job.ip, priority}`
(the link itself is opaque to the scheduler and modelled as a `Nat`). -/
structure Entry where
  data : Nat
  max_attempts : Nat
  attempts : Nat
  ip : String
  priority : Nat
deriving DecidableEq

/-- `this.priorityQueues = {1: [], 2: [], 3: [], 4: [], 5: []}`. -/
structure Lanes where
  q1 : List Entry
  q2 : List Entry
  q3 : List Entry
  q4 : List Entry
  q5 : List Entry
deriving DecidableEq

/-- `this.priorityQueues[p]` (a priority outside 1..5 has no lane). -/
def laneGet (l : Lanes) : Nat → List Entry
  | 1 => l.q1
  | 2 => l.q2
  | 3 => l.q3
  | 4 => l.q4
  | 5 => l.q5
  | _ => []

/-- assignment to `this.priorityQueues[p]`. -/
def laneSet (l : Lanes) (p : Nat) (q : List Entry) : Lanes :=
  match p with
  | 1 => { l with q1 := q }
  | 2 => { l with q2 := q }
  | 3 => { l with q3 := q }
  | 4 => { l with q4 := q }
  | 5 => { l with q5 := q }
  | _ => l

/-- `this.priorityQueues[priority].push(entry)` — tail insertion. -/
def lanePush (l : Lanes) (p : Nat) (e : Entry) : Lanes :=
  laneSet l p (laneGet l p ++ [e])

/-- `this.priorityQueues[job.priority].unshift(job)` — head insertion. -/
def laneUnshift (l : Lanes) (p : Nat) (e : Entry) : Lanes :=
  laneSet l p (e :: laneGet l p)

/-- the dequeue scan of `checkQueue` (queue.js lines 78-83):
`for (let priority = 1; priority <= 5; priority++) { if nonempty → shift(); break }`. -/
def pickJob (l : Lanes) : Option (Entry × Lanes) :=
  match l.q1 with
  | e :: r => some (e, { l with q1 := r })
  | [] =>
    match l.q2 with
    | e :: r => some (e, { l with q2 := r })
    | [] =>
      match l.q3 with
      | e :: r => some (e, { l with q3 := r })
      | [] =>
        match l.q4 with
        | e :: r => some (e, { l with q4 := r })
        | [] =>
          match l.q5 with
          | e :: r => some (e, { l with q5 := r })
          | [] => none

/-- `this.users` — JS object mapping ip → outstanding count. -/
abbrev Users := List (String × Int)

/-- `getUserQueuedAmt(ip) { return this.users[ip] || 0; }`. -/
def getUserQueuedAmt (u : Users) (ip : String) : Int := (mapGet u ip).getD 0

/-- `this.users[job.ip]++`.  `addJob` always initialises the key first;
on a missing key JS would store `NaN`, a state the scheduler never
reaches, and the model leaves the map unchanged there. -/
def userInc (u : Users) (ip : String) : Users :=
  match mapGet u ip with
  | some v => mapSet u ip (v + 1)
  | none => u

/-- `this.users[job.ip]--; if (this.users[job.ip] === 0) delete this.users[job.ip];`
(same unreachable-missing-key convention as `userInc`). -/
def decUser (u : Users) (ip : String) : Users :=
  match mapGet u ip with
  | some v => if v - 1 = 0 then mapDelete u ip else mapSet u ip (v - 1)
  | none => u

/-- scheduler state: the five lanes plus the per-caller accounting map. -/
structure QState where
  lanes : Lanes
  users : Users
deriving DecidableEq

/-- `size()` — total queued entries over all lanes. -/
def qsize (st : QState) : Nat :=
  st.lanes.q1.length + st.lanes.q2.length + st.lanes.q3.length +
    st.lanes.q4.length + st.lanes.q5.length

/-- the loop body of `addJob`: push one entry with `attempts: 0` to the
chosen lane and increment the caller's count. -/
def addJobStep (ip : String) (max_attempts priority : Nat) (s : QState) (link : Nat) :
    QState :=
  { lanes := lanePush s.lanes priority
      { data := link, max_attempts := max_attempts, attempts := 0,
        ip := ip, priority := priority },
    users := userInc s.users ip }

/-- `addJob(job, max_attempts, priority)` (queue.js lines 49-66):
initialise `users[ip]` if absent, then for every remaining link push one
entry to the chosen lane and increment `users[ip]`.  The `checkQueue()`
call after each push only dequeues/dispatches; its mutations of `users`
happen in the handler callbacks modelled by `onResolve` / `onReject`. -/
def addJob (st : QState) (ip : String) (links : List Nat)
    (max_attempts : Nat) (priority : Nat) : QState :=
  let users0 := if (mapGet st.users ip).isSome then st.users else mapSet st.users ip 0
  links.foldl (addJobStep ip max_attempts priority) { st with users := users0 }

/-- the success continuation `.then((delay) => { this.users[job.ip]--; … })`
of `checkQueue`; only its effect on `users` matters here (the returned
promise then merely waits `delay` ms). -/
def onResolve (u : Users) (ip : String) : Users := decUser u ip

/-- errors a handler invocation can reject with; `checkQueue` only
discriminates `errors.NoBotsAvailable` from everything else. -/
inductive QErr
  | NoBotsAvailable
  | other (msg : String)
deriving DecidableEq

/-- outcome of the `.catch((err) => …)` branch of `checkQueue`:
the entry with its updated attempt count, the `job failed` emission (with
its error) if any, the updated accounting map, and the scheduled requeue
(target lane, backoff delay in ms) if any. -/
structure RejectOut where
  entry : Entry
  failed : Option QErr
  users : Users
  requeue : Option (Nat × ℚ)
deriving DecidableEq

/-- the `.catch((err) => …)` branch of `checkQueue` (queue.js lines 101-121):
`attempts++` unless the error is `NoBotsAvailable`; on
`attempts >= max_attempts` emit `job failed` and decrement the caller's
count; otherwise schedule `priorityQueues[job.priority].unshift(job)` after
`1000 * Math.pow(2, job.attempts - 1)` ms. -/
def onReject (u : Users) (job : Entry) (err : QErr) : RejectOut :=
  let job' := if err = QErr.NoBotsAvailable then job
              else { job with attempts := job.attempts + 1 }
  if job'.attempts ≥ job'.max_attempts then
    { entry := job', failed := some err, users := decUser u job.ip, requeue := none }
  else
    { entry := job', failed := none, users := u,
      requeue := some (job'.priority, 1000 * (2 : ℚ) ^ ((job'.attempts : ℤ) - 1)) }

end Queue

namespace MemCacheB

/-- the decorated item handed to `insertItemData`; only its `a` field
(the asset id, used by `generateKey`) matters to the cache bound, the
rest of the record is carried opaquely. -/
structure Item where
  a : String
  payload : Int
deriving DecidableEq

/-- `price || null` — a missing or zero (falsy) price is stored as null. -/
def jsPrice : Option Int → Option Int
  | some v => if v = 0 then none else some v
  | none => none

/-- one stored value: `{item: Object.assign({}, item), price: price || null,
timestamp: Date.now()}`. -/
structure CVal where
  item : Item
  price : Option Int
  timestamp : ℤ
deriving DecidableEq

/-- the `Map` of the bounded MemoryCache, insertion-ordered. -/
abbrev Cache := List (String × CVal)

/-- `insertItemData(item, price)` of the bounded MemoryCache variant
(src/unnamed/part_000 lines 924-940): if the cache is at or above
`maxEntries`, delete the first (oldest-inserted) key, then `Map.set` the
new entry.  `cache.keys().next().value` on an empty map is `undefined`
and deleting it is a no-op. -/
def insertItemData (maxEntries : Nat) (now : ℤ) (c : Cache)
    (item : Item) (price : Option Int) : Cache :=
  let key := item.a
  let c1 :=
    if maxEntries ≤ c.length then
      match c.head? with
      | some p => mapDelete c p.1
      | none => c
    else c
  mapSet c1 key { item := item, price := jsPrice price, timestamp := now }

/-- a sequence of `insertItemData` calls (each without a price). -/
def insertMany (maxEntries : Nat) (now : ℤ) (c : Cache) (items : List Item) : Cache :=
  items.foldl (fun acc it => insertItemData maxEntries now acc it none) c

end MemCacheB

namespace MemCacheA

/-- the link parameter record `{s, a, d, m}` a link reduces to
(`link.getParams ? link.getParams() : link`). -/
structure Params where
  a : String
  d : String
  s : String
  m : String
deriving DecidableEq

/-- a cached decorated item; contents opaque except the key fields. -/
structure Item where
  a : String
  payload : Int
deriving DecidableEq

/-- one stored value of src/lib/memory_cache.js. -/
structure CVal where
  item : Item
  price : Option Int
  timestamp : ℤ
deriving DecidableEq

/-- JS `x || y` on strings: the empty string is the only falsy string. -/
def jsOrStr (x y : String) : String := if x = "" then y else x

/-- `generateKey(item)` of src/lib/memory_cache.js:
`` `${item.a || ''}_${item.d || ''}_${item.s || item.m || ''}` ``. -/
def generateKey (p : Params) : String :=
  jsOrStr p.a "" ++ "_" ++ jsOrStr p.d "" ++ "_" ++ jsOrStr p.s (jsOrStr p.m "")

/-- the argument of `getItemData`: either a JS array of links (each
already reduced to its params record) or any non-array value. -/
inductive LinksArg
  | notArray
  | arr (links : List Params)

/-- the lookup loop of `getItemData`: push `cachedData.item` for every
key that is present, skip the rest. -/
def getLoop (cache : List (String × CVal)) : List Params → List Item
  | [] => []
  | l :: rest =>
      match mapGet cache (generateKey l) with
      | some e => e.item :: getLoop cache rest
      | none => getLoop cache rest

/-- `getItemData(links)` (src/lib/memory_cache.js lines 14-29):
a non-array argument resolves to `[]`; an array resolves to the found
items in input order. -/
def getItemData (cache : List (String × CVal)) : LinksArg → List Item
  | .notArray => []
  | .arr links => getLoop cache links

end MemCacheA

namespace Bot

/-- a sticker record of the game-coordinator response; `sticker_id` is
the wire name, `stickerId` the renamed field, `wear` stands for the
fields the rename leaves untouched. -/
structure Sticker where
  sticker_id : Option Int
  stickerId : Option Int
  wear : Option ℚ
deriving DecidableEq

/-- the `iteminfo` record: wire fields of an inspect response plus the
fields stamped on it by `processItemData`.  Absent JS fields are `none`. -/
structure ItemInfo where
  itemid : String
  a : Option String
  d : Option String
  s : Option String
  m : Option String
  paintseed : Option Int
  paintwear : Option ℚ
  floatvalue : Option ℚ
  paintindex : Option Int
  stickers : Option (List Sticker)
deriving DecidableEq

/-- `this.currentRequest`: the params of the one outstanding inspect,
plus its submission time. -/
structure Request where
  s : String
  a : String
  d : String
  m : String
  time : ℤ
deriving DecidableEq

/-- the value handed to `resolve`: `{iteminfo, delay}`. -/
structure ItemData where
  iteminfo : ItemInfo
  delay : ℤ
deriving DecidableEq

/-- `sticker.stickerId = sticker.sticker_id; delete sticker.sticker_id;`. -/
def renameSticker (st : Sticker) : Sticker :=
  { st with stickerId := st.sticker_id, sticker_id := none }

/-- `processItemData(itemData, delay)` (bot.js lines 433-454): attach
`delay`, stamp `s/a/d/m` from the current request, coerce a null
`paintseed` to 0, move `paintwear` to `floatvalue` deleting `paintwear`,
and rename each sticker's `sticker_id` to `stickerId`. -/
def processItemData (cur : Request) (delay : ℤ) (info : ItemInfo) : ItemData :=
  { delay := delay,
    iteminfo :=
      { info with
        s := some cur.s
        a := some cur.a
        d := some cur.d
        m := some cur.m
        paintseed := some (info.paintseed.getD 0)
        floatvalue := info.paintwear
        paintwear := none
        stickers := info.stickers.map (fun l => l.map renameSticker) } }

/-- the bot settings used by the dispatcher. -/
structure Settings where
  request_delay : ℤ
  request_ttl : ℤ
  max_concurrent_requests : Int
deriving DecidableEq

/-- the dispatcher-relevant slice of a `Bot` instance.  `hasResolve`
models `this.resolve != null`, `ttlArmed` a pending `ttlTimeout`,
`awaitingDelay` the pending `setTimeout(() => { this.busy = false; … }, delay)`
scheduled by a matched response. -/
structure BotS where
  busy : Bool
  ready : Bool
  isShuttingDown : Bool
  hasResolve : Bool
  currentRequest : Option Request
  ttlArmed : Bool
  awaitingDelay : Bool
  activeRequests : Int
  requestQueue : List Request
  lastRequestTime : ℤ
deriving DecidableEq

/-- constructor state of a `Bot`. -/
def initBot : BotS :=
  { busy := false, ready := false, isShuttingDown := false, hasResolve := false,
    currentRequest := none, ttlArmed := false, awaitingDelay := false,
    activeRequests := 0, requestQueue := [], lastRequestTime := 0 }

/-- `handleInspectResponse(itemData)` (bot.js lines 391-431): drop the
event unless a request is outstanding and the echoed `itemid` matches it;
on a match clear the TTL timer, compute the pacing delay, process the
item data, resolve, and schedule `busy = false` after the delay. -/
def handleInspectResponse (s : Settings) (now : ℤ) (st : BotS) (info : ItemInfo) :
    BotS × Option ItemData :=
  if ¬st.hasResolve ∨ st.currentRequest = none then (st, none)
  else
    match st.currentRequest with
    | none => (st, none)
    | some cur =>
      if info.itemid ≠ cur.a then (st, none)
      else
        let offset := now - cur.time
        let delay := if s.request_delay - offset < 0 then 0 else s.request_delay - offset
        ({ st with
            ttlArmed := false
            hasResolve := false
            currentRequest := none
            activeRequests := st.activeRequests - 1
            awaitingDelay := true },
         some (processItemData cur delay info))

/-- `processRequestQueue` plus the `executeRequest` it calls (bot.js
lines 456-507): no dispatch while shutting down, busy, unready, with an
empty queue, at the concurrency cap, or inside the rate-limit window;
otherwise shift the queue head, stamp `lastRequestTime`, mark busy, set
`resolve`/`currentRequest`, bump `activeRequests` and arm the TTL. -/
def processRequestQueue (s : Settings) (now : ℤ) (st : BotS) : BotS :=
  if st.isShuttingDown ∨ st.busy ∨ ¬st.ready ∨ st.requestQueue = [] then st
  else if s.max_concurrent_requests ≤ st.activeRequests then st
  else if now - st.lastRequestTime < s.request_delay then st
  else
    match st.requestQueue with
    | [] => st
    | r :: rest =>
        { st with
            busy := true
            hasResolve := true
            currentRequest := some r
            ttlArmed := true
            awaitingDelay := st.awaitingDelay
            activeRequests := st.activeRequests + 1
            requestQueue := rest
            lastRequestTime := now }

/-- `handleRequestError` (bot.js lines 514-539): clear the TTL timer,
drop busy, decrement `activeRequests` (floored at 0) and reject the
outstanding request.  Its only callers — the `request_ttl` timer, the
`catch` of `executeRequest`, and the `inspectItemInfo` error boundary
past its early-return guard — run while a request is outstanding
(`resolve` and `currentRequest` set), so the transition is guarded on
that. -/
def handleRequestError (st : BotS) : BotS :=
  if st.hasResolve ∧ st.currentRequest.isSome then
    { st with
        ttlArmed := false
        busy := false
        activeRequests := max 0 (st.activeRequests - 1)
        hasResolve := false
        currentRequest := none }
  else st

/-- the events the dispatcher reacts to: `sendFloatRequest` queueing a
request, a `processRequestQueue` invocation, an `inspectItemInfo` event,
the post-response delay timer firing, `handleRequestError` (TTL expiry or
an exception inside a dispatch), and GC session changes. -/
inductive Ev
  | enqueue (r : Request)
  | processQueue (now : ℤ)
  | gcResponse (now : ℤ) (info : ItemInfo)
  | delayElapsed
  | requestError
  | gcConnected
  | gcDisconnected
deriving DecidableEq

/-- one event step of the bot dispatcher. -/
def stepBot (s : Settings) (st : BotS) : Ev → BotS
  | .enqueue r => { st with requestQueue := st.requestQueue ++ [r] }
  | .processQueue now => processRequestQueue s now st
  | .gcResponse now info => (handleInspectResponse s now st info).1
  | .delayElapsed =>
      if st.awaitingDelay then { st with busy := false, awaitingDelay := false } else st
  | .requestError => handleRequestError st
  | .gcConnected => { st with ready := true }
  | .gcDisconnected => { st with ready := false }

/-- run the dispatcher from the constructor state over an event list. -/
def runBot (s : Settings) (evs : List Ev) : BotS :=
  evs.foldl (stepBot s) initBot

/-- the one-in-flight discipline: `resolve` and `currentRequest` are set
together; a non-busy bot has no outstanding request and no pending
post-response delay; a pending post-response delay means the response
already arrived (no request outstanding). -/
def OneInFlight (st : BotS) : Prop :=
  st.hasResolve = st.currentRequest.isSome ∧
  (st.busy = false → st.currentRequest = none ∧ st.awaitingDelay = false) ∧
  (st.awaitingDelay = true → st.currentRequest = none)

end Bot

namespace Server

/-- the configuration fields the `/inspect` admission logic reads. -/
structure Config where
  api_key : String
  max_attempts : Nat
  max_simultaneous_requests : Int
  max_queue_size : Int
deriving DecidableEq

/-- the request body of `POST /inspect`.  `parsedLink` is the outcome of
the `new InspectURL(...)` parse (lib/inspect_url.js is not among the
sources; only success or failure of the parse matters to these claims),
carrying the link as the opaque id the queue stores. -/
structure InspectBody where
  apiKey : Option String
  priority : Option Int
  parsedLink : Option Nat
  ip : String
deriving DecidableEq

/-- `let priority = parseInt(req.body.priority) || 4;` followed by
`if (priority < 1 || priority > 5) priority = 4;`  (`parseInt` of a
missing field is `NaN`, and both `NaN` and `0` are falsy). -/
def clampPriority (o : Option Int) : Nat :=
  let p : Int := match o with
    | some v => if v = 0 then 4 else v
    | none => 4
  if p < 1 ∨ p > 5 then 4 else p.toNat

/-- the response the `/inspect` route hands back. -/
inductive RouteResp
  | apiKey403
  | invalidInspect
  | accepted (priority : Nat)
deriving DecidableEq

/-- the one response the route writes inline:
`res.status(403).json({error: 'Invalid API key', code: 8})` — status,
error string, code.  The other responses go through errors.js, which is
not among the sources, so nothing is modelled for them. -/
def RouteResp.inline403 : RouteResp → Option (Nat × String × Nat)
  | .apiKey403 => some (403, "Invalid API key", 8)
  | _ => none

/-- `app.post('/inspect', …)` (src/unnamed/part_000 lines 148-193):
reject a falsy or mismatched `apiKey` with the inline 403 before
anything else; parse the link, answering `InvalidInspect` on failure;
otherwise build the job and call
`queue.addJob(job, CONFIG.bot_settings.max_attempts, priority)` directly —
no admission check is performed on this path. -/
def postInspect (cfg : Config) (st : Queue.QState) (body : InspectBody) :
    RouteResp × Queue.QState :=
  if body.apiKey = none ∨ body.apiKey = some "" ∨ body.apiKey ≠ some cfg.api_key then
    (RouteResp.apiKey403, st)
  else
    match body.parsedLink with
    | none => (RouteResp.invalidInspect, st)
    | some link =>
        let priority := clampPriority body.priority
        (RouteResp.accepted priority,
         Queue.addJob st body.ip [link] cfg.max_attempts priority)

/-- outcome of the admission section of `handleJob`. -/
inductive Admission
  | steamOffline
  | maxRequests
  | maxQueueSize
  | enqueue
  | done
deriving DecidableEq

/-- the admission logic of `handleJob` (src/unnamed/part_000 lines
101-116), the checks the spec places before every enqueue.  `remaining`
is `job.remainingSize()` after the cache-fill loop, `userAmt` is
`queue.getUserQueuedAmt(job.ip)` and `queueSize` is `queue.size()`.
`handleJob` is referenced only by the commented-out `/bulk` route; no
active route calls it. -/
def handleJobAdmission (cfg : Config) (hasBotOnline : Bool)
    (userAmt queueSize remaining : Int) : Admission :=
  if ¬hasBotOnline then .steamOffline
  else if cfg.max_simultaneous_requests > 0 ∧
      userAmt + remaining > cfg.max_simultaneous_requests then .maxRequests
  else if cfg.max_queue_size > 0 ∧ queueSize + remaining > cfg.max_queue_size then
    .maxQueueSize
  else if remaining > 0 then .enqueue
  else .done

end Server

/-! ## Helper lemmas -/

theorem mapGet_mapSet_self {V : Type} (m : List (String × V)) (k : String) (v : V) :
    mapGet (mapSet m k v) k = some v := by
  induction m with
  | nil => simp [mapSet, mapGet]
  | cons p rest ih =>
    by_cases h : p.1 = k
    · simp [mapSet, mapGet, h]
    · simp [mapSet, mapGet, h, ih]

theorem mapGet_mapSet_ne {V : Type} (m : List (String × V)) (k k' : String) (v : V)
    (h : k' ≠ k) : mapGet (mapSet m k v) k' = mapGet m k' := by
  have hk : ¬k = k' := fun hh => h hh.symm
  induction m with
  | nil =>
    simp only [mapSet, mapGet]
    rw [if_neg hk]
  | cons p rest ih =>
    rcases p with ⟨pk, pv⟩
    by_cases hp : pk = k
    · subst hp
      simp only [mapSet, if_pos rfl, mapGet]
      rw [if_neg hk, if_neg hk]
    · simp only [mapSet, if_neg hp, mapGet, ih]

theorem mapGet_mapDelete_self_of_nodup {V : Type} (m : List (String × V)) (k : String)
    (hnd : (m.map Prod.fst).Nodup) : mapGet (mapDelete m k) k = none := by
  induction m with
  | nil => simp [mapDelete, mapGet]
  | cons p rest ih =>
    simp only [List.map_cons, List.nodup_cons] at hnd
    by_cases hp : p.1 = k
    · subst hp
      cases hget : mapGet rest p.1 with
      | none => simp [mapDelete, hget]
      | some v =>
        exfalso
        apply hnd.1
        clear ih hnd
        induction rest with
        | nil => simp [mapGet] at hget
        | cons q rs ihr =>
          by_cases hq : q.1 = p.1
          · simp [hq]
          · simp only [mapGet, hq, if_false] at hget
            simp [ihr hget]
    · simp [mapDelete, hp, mapGet, ih hnd.2]

theorem mapSet_of_absent {V : Type} (m : List (String × V)) (k : String) (v : V)
    (h : mapGet m k = none) : mapSet m k v = m ++ [(k, v)] := by
  induction m with
  | nil => simp [mapSet]
  | cons p rest ih =>
    by_cases hp : p.1 = k
    · simp [mapGet, hp] at h
    · simp only [mapGet, hp, if_false] at h
      simp [mapSet, hp, ih h]

theorem mapGet_eq_none_of_not_mem {V : Type} (m : List (String × V)) (k : String)
    (h : k ∉ m.map Prod.fst) : mapGet m k = none := by
  induction m with
  | nil => rfl
  | cons p rest ih =>
    simp only [List.map_cons, List.mem_cons, not_or] at h
    have hne : ¬p.1 = k := fun hh => h.1 hh.symm
    simp [mapGet, hne, ih h.2]

theorem length_mapSet_le {V : Type} (m : List (String × V)) (k : String) (v : V) :
    (mapSet m k v).length ≤ m.length + 1 := by
  induction m with
  | nil => simp [mapSet]
  | cons p rest ih =>
    by_cases hp : p.1 = k
    · simp [mapSet, hp]
    · simp only [mapSet, hp, if_false, List.length_cons]
      omega

namespace Queue

theorem laneGet_laneSet_ne (l : Lanes) (p q : Nat) (lst : List Entry) (h : q ≠ p) :
    laneGet (laneSet l p lst) q = laneGet l q := by
  rcases p with _ | _ | _ | _ | _ | _ | p <;>
    rcases q with _ | _ | _ | _ | _ | _ | q <;>
      simp_all [laneSet, laneGet]

theorem laneGet_laneSet_self (l : Lanes) (p : Nat) (lst : List Entry)
    (h1 : 1 ≤ p) (h5 : p ≤ 5) : laneGet (laneSet l p lst) p = lst := by
  rcases p with _ | _ | _ | _ | _ | _ | p <;>
    simp_all [laneSet, laneGet]

theorem foldl_addJobStep_get (ip : String) (ma p : Nat) (links : List Nat) :
    ∀ (s : QState) (v : Int), mapGet s.users ip = some v →
      mapGet (links.foldl (addJobStep ip ma p) s).users ip = some (v + links.length) ∧
      (∀ ip', ip' ≠ ip →
        mapGet (links.foldl (addJobStep ip ma p) s).users ip' = mapGet s.users ip') := by
  induction links with
  | nil =>
    intro s v hv
    refine ⟨?_, fun _ _ => rfl⟩
    simpa using hv
  | cons a as ih =>
    intro s v hv
    have hstep : mapGet (addJobStep ip ma p s a).users ip = some (v + 1) := by
      simp [addJobStep, userInc, hv, mapGet_mapSet_self]
    obtain ⟨h1, h2⟩ := ih (addJobStep ip ma p s a) (v + 1) hstep
    have harith : v + 1 + (as.length : Int) = v + ((a :: as).length : Int) := by
      simp only [List.length_cons]
      push_cast
      ring
    refine ⟨?_, ?_⟩
    · rw [List.foldl_cons, h1, harith]
    · intro ip' hip'
      rw [List.foldl_cons, h2 ip' hip']
      simp [addJobStep, userInc, hv, mapGet_mapSet_ne _ _ _ _ hip']

theorem addJob_users_get (st : QState) (ip : String) (links : List Nat) (ma p : Nat) :
    mapGet (addJob st ip links ma p).users ip
      = some (getUserQueuedAmt st.users ip + links.length) ∧
    (∀ ip', ip' ≠ ip →
      mapGet (addJob st ip links ma p).users ip' = mapGet st.users ip') := by
  unfold addJob
  cases hget : mapGet st.users ip with
  | some v =>
    have h := foldl_addJobStep_get ip ma p links { st with users := st.users } v hget
    simpa [hget, getUserQueuedAmt] using h
  | none =>
    have hinit : mapGet (mapSet st.users ip 0) ip = some 0 := mapGet_mapSet_self _ _ _
    have h := foldl_addJobStep_get ip ma p links
      { st with users := mapSet st.users ip 0 } 0 hinit
    refine ⟨?_, ?_⟩
    · simpa [hget, getUserQueuedAmt] using h.1
    · intro ip' hip'
      have := h.2 ip' hip'
      simpa [hget, mapGet_mapSet_ne _ _ _ _ hip'] using this

/-- C1: with at least one non-empty lane, the dequeue scan of `checkQueue`
takes the head of the first non-empty lane in priority order 1..5 and
leaves everything else in place: no lower-priority entry is dispatched
while a higher-priority entry is waiting, and within one lane dispatch is
FIFO (head removal against `push` tail insertion). -/
theorem dequeue_strict_priority_fifo (l : Lanes)
    (h : ∃ p, 1 ≤ p ∧ p ≤ 5 ∧ laneGet l p ≠ []) :
    (∃ e l' p, pickJob l = some (e, l') ∧ 1 ≤ p ∧ p ≤ 5 ∧
        laneGet l p = e :: laneGet l' p ∧
        (∀ q, q < p → laneGet l q = []) ∧
        (∀ q, q ≠ p → laneGet l' q = laneGet l q)) ∧
    (∀ p e, 1 ≤ p → p ≤ 5 → laneGet (lanePush l p e) p = laneGet l p ++ [e]) := by
  constructor
  · rcases l with ⟨l1, l2, l3, l4, l5⟩
    cases l1 with
    | cons e r =>
      refine ⟨e, ⟨r, l2, l3, l4, l5⟩, 1, rfl, le_refl 1, by omega, rfl, ?_, ?_⟩
      · intro q hq
        interval_cases q
        rfl
      · intro q hq
        rcases q with _ | _ | _ | _ | _ | _ | q <;> simp_all [laneGet]
    | nil =>
      cases l2 with
      | cons e r =>
        refine ⟨e, ⟨[], r, l3, l4, l5⟩, 2, rfl, by omega, by omega, rfl, ?_, ?_⟩
        · intro q hq
          interval_cases q <;> rfl
        · intro q hq
          rcases q with _ | _ | _ | _ | _ | _ | q <;> simp_all [laneGet]
      | nil =>
        cases l3 with
        | cons e r =>
          refine ⟨e, ⟨[], [], r, l4, l5⟩, 3, rfl, by omega, by omega, rfl, ?_, ?_⟩
          · intro q hq
            interval_cases q <;> rfl
          · intro q hq
            rcases q with _ | _ | _ | _ | _ | _ | q <;> simp_all [laneGet]
        | nil =>
          cases l4 with
          | cons e r =>
            refine ⟨e, ⟨[], [], [], r, l5⟩, 4, rfl, by omega, by omega, rfl, ?_, ?_⟩
            · intro q hq
              interval_cases q <;> rfl
            · intro q hq
              rcases q with _ | _ | _ | _ | _ | _ | q <;> simp_all [laneGet]
          | nil =>
            cases l5 with
            | cons e r =>
              refine ⟨e, ⟨[], [], [], [], r⟩, 5, rfl, by omega, by omega, rfl, ?_, ?_⟩
              · intro q hq
                interval_cases q <;> rfl
              · intro q hq
                rcases q with _ | _ | _ | _ | _ | _ | q <;> simp_all [laneGet]
            | nil =>
              exfalso
              rcases h with ⟨p, hp1, hp5, hne⟩
              interval_cases p <;> simp_all [laneGet]
  · intro p e h1 h5
    simp [lanePush, laneGet_laneSet_self _ _ _ h1 h5]

/-- C1 witness: lanes 2 and 4 populated, lane 2's head is dequeued. -/
theorem dequeue_strict_priority_fifo_witness :
    pickJob (⟨[], [⟨10, 3, 0, "a", 2⟩, ⟨11, 3, 0, "a", 2⟩], [], [⟨12, 3, 0, "b", 4⟩], []⟩ :
      Lanes) ≠ none := by
  have h := dequeue_strict_priority_fifo
    ⟨[], [⟨10, 3, 0, "a", 2⟩, ⟨11, 3, 0, "a", 2⟩], [], [⟨12, 3, 0, "b", 4⟩], []⟩
    ⟨2, by decide, by decide, by decide⟩
  rcases h.1 with ⟨e, l', p, hpick, -⟩
  simp [hpick]

/-- C2: on a handler rejection, `attempts` is unchanged for
`NoBotsAvailable` and incremented otherwise; if the updated count has
reached `max_attempts` the entry fails (`job failed` with the error, the
caller's count decremented, no requeue); otherwise nothing is emitted,
the accounting is untouched, and the entry is scheduled back at the head
of the lane of its original priority after `1000 * 2 ^ (attempts − 1)` ms. -/
theorem retry_policy (u : Users) (l : Lanes) (job : Entry) (err : QErr)
    (hp1 : 1 ≤ job.priority) (hp5 : job.priority ≤ 5) :
    (err = QErr.NoBotsAvailable →
      (job.max_attempts ≤ job.attempts →
        onReject u job err = ⟨job, some err, decUser u job.ip, none⟩) ∧
      (job.attempts < job.max_attempts →
        onReject u job err =
          ⟨job, none, u,
           some (job.priority, 1000 * (2 : ℚ) ^ ((job.attempts : ℤ) - 1))⟩)) ∧
    (err ≠ QErr.NoBotsAvailable →
      (job.max_attempts ≤ job.attempts + 1 →
        onReject u job err =
          ⟨{ job with attempts := job.attempts + 1 }, some err, decUser u job.ip, none⟩) ∧
      (job.attempts + 1 < job.max_attempts →
        onReject u job err =
          ⟨{ job with attempts := job.attempts + 1 }, none, u,
           some (job.priority, 1000 * (2 : ℚ) ^ (((job.attempts : ℤ) + 1) - 1))⟩)) ∧
    (∀ e, laneGet (laneUnshift l job.priority e) job.priority
        = e :: laneGet l job.priority) := by
  refine ⟨fun herr => ⟨fun hge => ?_, fun hlt => ?_⟩,
          fun herr => ⟨fun hge => ?_, fun hlt => ?_⟩, fun e => ?_⟩
  · simp [onReject, herr, hge]
  · simp [onReject, herr, Nat.not_le.mpr hlt]
  · simp [onReject, herr, hge]
  · simp [onReject, herr, Nat.not_le.mpr hlt]
  · simp [laneUnshift, laneGet_laneSet_self _ _ _ hp1 hp5]

/-- C2 witness: a first `Timeout`-style rejection of a fresh entry at
priority 2 with budget 3: attempts become 1, no failure, requeue at the
original priority with a 1000 ms backoff. -/
theorem retry_policy_witness :
    onReject [("1.2.3.4", 1)] ⟨7, 3, 0, "1.2.3.4", 2⟩ (QErr.other "timeout")
      = ⟨⟨7, 3, 1, "1.2.3.4", 2⟩, none, [("1.2.3.4", 1)],
         some (2, 1000 * (2 : ℚ) ^ (((0 : ℤ) + 1) - 1))⟩ := by
  have h := retry_policy [("1.2.3.4", 1)] ⟨[], [], [], [], []⟩
    ⟨7, 3, 0, "1.2.3.4", 2⟩ (QErr.other "timeout") (by decide) (by decide)
  exact (h.2.1 (by decide)).2 (by decide)

/-- C3: `users[ip]` is incremented exactly once per entry at enqueue
(and other callers are unaffected), decremented exactly once at either
terminal — handler success (`onResolve`) or attempt exhaustion (whose
accounting update equals `onResolve`) — never on a requeue-for-retry,
and a count that reaches zero is removed so `getUserQueuedAmt` is 0. -/
theorem user_accounting (st : QState) (ip ip' : String) (links : List Nat)
    (ma p : Nat) (u : Users) (n : Int) (job : Entry) (err : QErr)
    (hnd : (u.map Prod.fst).Nodup) :
    (getUserQueuedAmt (addJob st ip links ma p).users ip
        = getUserQueuedAmt st.users ip + links.length) ∧
    (ip' ≠ ip → getUserQueuedAmt (addJob st ip links ma p).users ip'
        = getUserQueuedAmt st.users ip') ∧
    (mapGet u ip = some n →
        getUserQueuedAmt (onResolve u ip) ip = n - 1 ∧
        (n = 1 → mapGet (onResolve u ip) ip = none ∧
                 getUserQueuedAmt (onResolve u ip) ip = 0)) ∧
    (job.ip = ip → job.max_attempts ≤ (onReject u job err).entry.attempts →
        (onReject u job err).users = onResolve u ip) ∧
    ((onReject u job err).entry.attempts < job.max_attempts →
        (onReject u job err).users = u) := by
  obtain ⟨hA, hB⟩ := addJob_users_get st ip links ma p
  refine ⟨?_, ?_, ?_, ?_, ?_⟩
  · simp [getUserQueuedAmt, hA]
  · intro hip'
    simp [getUserQueuedAmt, hB ip' hip']
  · intro hu
    by_cases hn : n = 1
    · subst hn
      have hdel : mapGet (mapDelete u ip) ip = none :=
        mapGet_mapDelete_self_of_nodup u ip hnd
      constructor
      · simp [onResolve, decUser, hu, getUserQueuedAmt, hdel]
      · intro _
        simp [onResolve, decUser, hu, getUserQueuedAmt, hdel]
    · have hne : ¬n - 1 = 0 := by omega
      refine ⟨?_, fun h1 => absurd h1 hn⟩
      simp [onResolve, decUser, hu, hne, getUserQueuedAmt, mapGet_mapSet_self]
  · intro hip hge
    by_cases herr : err = QErr.NoBotsAvailable
    · by_cases hc : job.max_attempts ≤ job.attempts
      · simp [onReject, herr, hc, hip, onResolve]
      · exfalso
        simp [onReject, herr, hc] at hge
    · by_cases hc : job.max_attempts ≤ job.attempts + 1
      · simp [onReject, herr, hc, hip, onResolve]
      · exfalso
        simp [onReject, herr, hc] at hge
  · intro hlt
    by_cases herr : err = QErr.NoBotsAvailable
    · by_cases hc : job.max_attempts ≤ job.attempts
      · exfalso
        simp [onReject, herr, hc] at hlt
        omega
      · simp [onReject, herr, hc]
    · by_cases hc : job.max_attempts ≤ job.attempts + 1
      · exfalso
        simp [onReject, herr, hc] at hlt
        omega
      · simp [onReject, herr, hc]

/-- C3 witness: enqueueing two links for a fresh caller yields count 2;
resolving with count 1 removes the caller's key. -/
theorem user_accounting_witness :
    getUserQueuedAmt (addJob ⟨⟨[], [], [], [], []⟩, []⟩ "u1" [5, 6] 3 2).users "u1"
        = getUserQueuedAmt ([] : Users) "u1" + (([5, 6] : List Nat).length : Int) ∧
    mapGet (onResolve [("u1", 1)] "u1") "u1" = none := by
  constructor
  · exact (user_accounting ⟨⟨[], [], [], [], []⟩, []⟩ "u1" "x" [5, 6] 3 2
      [("u1", 1)] 1 ⟨0, 1, 0, "u1", 1⟩ (QErr.other "e") (by decide)).1
  · exact (((user_accounting ⟨⟨[], [], [], [], []⟩, []⟩ "u1" "x" [5, 6] 3 2
      [("u1", 1)] 1 ⟨0, 1, 0, "u1", 1⟩ (QErr.other "e") (by decide)).2.2.1
        (by decide)).2 rfl).1

end Queue

namespace MemCacheB

theorem insertItemData_at_capacity (M : Nat) (now : ℤ) (p : String × CVal)
    (t : Cache) (item : Item) (price : Option Int) (hfull : M ≤ (p :: t).length) :
    insertItemData M now (p :: t) item price
      = mapSet t item.a ⟨item, jsPrice price, now⟩ := by
  have hfull' : M ≤ t.length + 1 := by simpa using hfull
  simp [insertItemData, hfull', mapDelete]

/-- C4: every `insertItemData` keeps the cache within `maxEntries`; an
insert at capacity first evicts the least-recently-inserted (head) entry
and then writes; consequently N fresh inserts into a full cache evict
exactly the N oldest entries, oldest first. -/
theorem insert_bounded_fifo (M : Nat) (now : ℤ) (c : Cache)
    (item : Item) (price : Option Int) (items : List Item) (hM : 1 ≤ M) :
    (c.length ≤ M → (insertItemData M now c item price).length ≤ M) ∧
    (M ≤ c.length → ∀ p t, c = p :: t →
        insertItemData M now c item price
          = mapSet t item.a ⟨item, jsPrice price, now⟩) ∧
    (c.length = M → (c.map Prod.fst).Nodup →
      (items.map Item.a).Nodup →
      (∀ it ∈ items, it.a ∉ c.map Prod.fst) →
      items.length ≤ M →
      insertMany M now c items
        = c.drop items.length
            ++ items.map (fun it => (it.a, (⟨it, none, now⟩ : CVal)))) := by
  refine ⟨?_, ?_, ?_⟩
  · intro hle
    by_cases hfull : M ≤ c.length
    · rcases c with _ | ⟨p, t⟩
      · simp only [List.length_nil] at hfull
        omega
      · rw [insertItemData_at_capacity M now p t item price hfull]
        have := length_mapSet_le t item.a (⟨item, jsPrice price, now⟩ : CVal)
        simp only [List.length_cons] at hle
        omega
    · have h1 : insertItemData M now c item price
          = mapSet c item.a ⟨item, jsPrice price, now⟩ := by
        simp [insertItemData, hfull]
      rw [h1]
      have := length_mapSet_le c item.a (⟨item, jsPrice price, now⟩ : CVal)
      omega
  · intro hfull p t hc
    subst hc
    exact insertItemData_at_capacity M now p t item price hfull
  · induction items generalizing c with
    | nil =>
      intro _ _ _ _ _
      simp [insertMany]
    | cons it its ih =>
      intro hlen hnodc hnodi hfresh hle
      rcases c with _ | ⟨p, t⟩
      · simp only [List.length_nil] at hlen
        omega
      · have hfull : M ≤ (p :: t).length := by omega
        have hstep : insertItemData M now (p :: t) it none
            = mapSet t it.a ⟨it, none, now⟩ :=
          insertItemData_at_capacity M now p t it none hfull
        have hfrt : it.a ∉ t.map Prod.fst := by
          have := hfresh it (by simp)
          simp only [List.map_cons, List.mem_cons, not_or] at this
          exact this.2
        have hset : mapSet t it.a (⟨it, none, now⟩ : CVal)
            = t ++ [(it.a, (⟨it, none, now⟩ : CVal))] :=
          mapSet_of_absent t it.a _ (mapGet_eq_none_of_not_mem t it.a hfrt)
        have hlen' : (t ++ [(it.a, (⟨it, none, now⟩ : CVal))]).length = M := by
          simp only [List.length_cons] at hlen
          simp only [List.length_append, List.length_cons, List.length_nil]
          omega
        have hnodc' : ((t ++ [(it.a, (⟨it, none, now⟩ : CVal))]).map Prod.fst).Nodup := by
          simp only [List.map_append, List.map_cons, List.map_nil]
          simp only [List.map_cons, List.nodup_cons] at hnodc
          refine List.Nodup.append hnodc.2 (by simp) ?_
          intro x hx
          simp only [List.mem_singleton]
          intro hxa
          subst hxa
          exact hfrt hx
      -- freshness of the remaining items w.r.t. the new cache
        have hnodi' : (its.map Item.a).Nodup := by
          simp only [List.map_cons, List.nodup_cons] at hnodi
          exact hnodi.2
        have hfresh' : ∀ x ∈ its,
            x.a ∉ (t ++ [(it.a, (⟨it, none, now⟩ : CVal))]).map Prod.fst := by
          intro x hx
          have hxc := hfresh x (by simp [hx])
          simp only [List.map_cons, List.mem_cons, not_or] at hxc
          simp only [List.map_append, List.map_cons, List.map_nil, List.mem_append,
            List.mem_singleton, not_or]
          refine ⟨hxc.2, ?_⟩
          intro hxa
          simp only [List.map_cons, List.nodup_cons] at hnodi
          exact hnodi.1 (hxa ▸ List.mem_map_of_mem Item.a hx)
        have hle' : its.length ≤ M := by
          simp only [List.length_cons] at hle
          omega
        have hrec := ih (t ++ [(it.a, (⟨it, none, now⟩ : CVal))])
          hlen' hnodc' hnodi' hfresh' hle'
        have hunfold : insertMany M now (p :: t) (it :: its)
            = insertMany M now (t ++ [(it.a, (⟨it, none, now⟩ : CVal))]) its := by
          simp only [insertMany, List.foldl_cons]
          rw [show insertItemData M now (p :: t) it none
              = t ++ [(it.a, (⟨it, none, now⟩ : CVal))] from hstep.trans hset]
        rw [hunfold, hrec]
        have hlet : its.length ≤ t.length := by
          simp only [List.length_cons] at hlen hle
          omega
        rw [List.drop_append_of_le_length hlet]
        simp [List.append_assoc]

/-- C4 witness: `maxEntries = 3`; inserting `D` into the full cache
`A,B,C` evicts `A` and yields `B,C,D` (scenario S6 of the spec). -/
theorem insert_bounded_fifo_witness :
    insertMany 3 0 [("A", ⟨⟨"A", 0⟩, none, 0⟩), ("B", ⟨⟨"B", 0⟩, none, 0⟩),
        ("C", ⟨⟨"C", 0⟩, none, 0⟩)] [⟨"D", 0⟩]
      = [("B", ⟨⟨"B", 0⟩, none, 0⟩), ("C", ⟨⟨"C", 0⟩, none, 0⟩),
         ("D", ⟨⟨"D", 0⟩, none, 0⟩)] := by
  have h := (insert_bounded_fifo 3 0
    [("A", ⟨⟨"A", 0⟩, none, 0⟩), ("B", ⟨⟨"B", 0⟩, none, 0⟩), ("C", ⟨⟨"C", 0⟩, none, 0⟩)]
    ⟨"Z", 0⟩ none [⟨"D", 0⟩] (by decide)).2.2
    (by decide) (by decide) (by decide) (by decide) (by decide)
  simpa using h

end MemCacheB

namespace MemCacheA

/-- C10: `getItemData` never fails: a non-array argument resolves to the
empty list, and an array resolves to the cached entries of exactly the
present keys, in input order, silently skipping absent keys — the result
can be shorter than the input and carries no per-key absence marker. -/
theorem getItemData_lookup_total (cache : List (String × CVal)) (links : List Params) :
    getItemData cache LinksArg.notArray = [] ∧
    getItemData cache (LinksArg.arr links)
      = links.filterMap (fun l => (mapGet cache (generateKey l)).map CVal.item) ∧
    (getItemData cache (LinksArg.arr links)).length ≤ links.length ∧
    (∀ l ∈ links, mapGet cache (generateKey l) = none →
        (getItemData cache (LinksArg.arr links)).length < links.length) := by
  have hlen : ∀ ls : List Params, (getLoop cache ls).length ≤ ls.length := by
    intro ls
    induction ls with
    | nil => simp [getLoop]
    | cons l rest ih =>
      cases hg : mapGet cache (generateKey l) with
      | some e =>
        simp only [getLoop, hg, List.length_cons]
        omega
      | none =>
        simp only [getLoop, hg, List.length_cons]
        omega
  have hmain : ∀ ls : List Params, getLoop cache ls
      = ls.filterMap (fun l => (mapGet cache (generateKey l)).map CVal.item) := by
    intro ls
    induction ls with
    | nil => rfl
    | cons l rest ih =>
      cases hg : mapGet cache (generateKey l) with
      | some e => simp [getLoop, hg, ih, List.filterMap_cons]
      | none => simp [getLoop, hg, ih, List.filterMap_cons]
  have hstrict : ∀ ls : List Params, ∀ l ∈ ls, mapGet cache (generateKey l) = none →
      (getLoop cache ls).length < ls.length := by
    intro ls
    induction ls with
    | nil =>
      intro l hl
      cases hl
    | cons x rest ih =>
      intro l hl hnone
      rcases List.mem_cons.mp hl with hx | hr
      · subst hx
        simp only [getLoop, hnone, List.length_cons]
        exact Nat.lt_succ_of_le (hlen rest)
      · cases hg : mapGet cache (generateKey x) with
        | some e =>
          simp only [getLoop, hg, List.length_cons]
          exact Nat.succ_lt_succ (ih l hr hnone)
        | none =>
          simp only [getLoop, hg, List.length_cons]
          exact Nat.lt_succ_of_lt (ih l hr hnone)
  exact ⟨rfl, hmain links, hlen links, fun l hl hn => hstrict links l hl hn⟩

/-- C10 witness: a two-link lookup against a one-entry cache returns one
item — the absent key is skipped and the result is shorter. -/
theorem getItemData_lookup_total_witness :
    (getItemData [("1_2_3", ⟨⟨"1", 0⟩, none, 0⟩)]
        (LinksArg.arr [⟨"1", "2", "3", "0"⟩, ⟨"9", "9", "9", "0"⟩])).length
      < ([⟨"1", "2", "3", "0"⟩, ⟨"9", "9", "9", "0"⟩] : List Params).length := by
  exact (getItemData_lookup_total [("1_2_3", ⟨⟨"1", 0⟩, none, 0⟩)]
      [⟨"1", "2", "3", "0"⟩, ⟨"9", "9", "9", "0"⟩]).2.2.2
    ⟨"9", "9", "9", "0"⟩ (by decide) (by decide)

end MemCacheA

namespace Server

/-- C9: a `POST /inspect` whose body `apiKey` is missing or differs from
the configured `api_key` is answered with the inline
`403 {error: 'Invalid API key', code: 8}` and the queue state is
untouched — no link is parsed and no job is created. -/
theorem invalid_api_key_403 (cfg : Config) (st : Queue.QState) (body : InspectBody)
    (h : body.apiKey = none ∨ body.apiKey ≠ some cfg.api_key) :
    postInspect cfg st body = (RouteResp.apiKey403, st) ∧
    RouteResp.inline403 (postInspect cfg st body).1
      = some (403, "Invalid API key", 8) := by
  have hcond : body.apiKey = none ∨ body.apiKey = some "" ∨
      body.apiKey ≠ some cfg.api_key := by
    rcases h with h | h
    · exact Or.inl h
    · exact Or.inr (Or.inr h)
  have hpost : postInspect cfg st body = (RouteResp.apiKey403, st) := by
    unfold postInspect
    rw [if_pos hcond]
  refine ⟨hpost, ?_⟩
  rw [hpost]
  rfl

/-- C9 witness: a mismatched key gets the 403 and leaves the queue as is. -/
theorem invalid_api_key_403_witness :
    postInspect ⟨"secret", 3, 1, 100⟩ ⟨⟨[], [], [], [], []⟩, []⟩
        ⟨some "wrong", none, some 7, "1.2.3.4"⟩
      = (RouteResp.apiKey403, ⟨⟨[], [], [], [], []⟩, []⟩) := by
  exact (invalid_api_key_403 ⟨"secret", 3, 1, 100⟩ ⟨⟨[], [], [], [], []⟩, []⟩
    ⟨some "wrong", none, some 7, "1.2.3.4"⟩ (Or.inr (by decide))).1

/-- C5 (code bug): spec scenario S2 — `max_simultaneous_requests = 2`,
caller `9.9.9.9` already has 2 outstanding entries, valid key, one valid
link.  The active `/inspect` route enqueues anyway: the caller's count
rises to 3 and the lane grows, although the admission logic sitting
unused in `handleJob` would refuse this very request with `MaxRequests`. -/
theorem inspect_route_bypasses_admission :
    (postInspect ⟨"k", 3, 2, 100⟩ ⟨⟨[], [], [], [], []⟩, [("9.9.9.9", 2)]⟩
        ⟨some "k", none, some 7, "9.9.9.9"⟩).1 = RouteResp.accepted 4 ∧
    Queue.getUserQueuedAmt
        (postInspect ⟨"k", 3, 2, 100⟩ ⟨⟨[], [], [], [], []⟩, [("9.9.9.9", 2)]⟩
          ⟨some "k", none, some 7, "9.9.9.9"⟩).2.users "9.9.9.9" = 3 ∧
    Queue.qsize
        (postInspect ⟨"k", 3, 2, 100⟩ ⟨⟨[], [], [], [], []⟩, [("9.9.9.9", 2)]⟩
          ⟨some "k", none, some 7, "9.9.9.9"⟩).2 = 1 ∧
    handleJobAdmission ⟨"k", 3, 2, 100⟩ true 2 0 1 = Admission.maxRequests := by
  decide

end Server

namespace Bot

theorem ite_neg_max (d : ℤ) : (if d < 0 then 0 else d) = max 0 d := by
  rcases lt_or_ge d 0 with hd | hd
  · rw [if_pos hd, max_eq_left (le_of_lt hd)]
  · rw [if_neg (not_lt.mpr hd), max_eq_right hd]

/-- C6: a response matching the current request hands back a record whose
`floatvalue` is the coordinator's `paintwear` with the `paintwear` field
removed, `paintseed` coerced from null to 0, every sticker's `sticker_id`
renamed to `stickerId`, `a/d/s/m` stamped from the original request
regardless of what the coordinator echoed, and
`delay = max(0, request_delay − (now − request.time))`. -/
theorem response_shape (s : Settings) (now : ℤ) (st : BotS) (cur : Request)
    (info : ItemInfo) (hres : st.hasResolve = true)
    (hcur : st.currentRequest = some cur) (hid : info.itemid = cur.a) :
    ∃ st' out, handleInspectResponse s now st info = (st', some out) ∧
      out.iteminfo.floatvalue = info.paintwear ∧
      out.iteminfo.paintwear = none ∧
      out.iteminfo.paintseed = some (info.paintseed.getD 0) ∧
      (info.paintseed = none → out.iteminfo.paintseed = some 0) ∧
      out.iteminfo.stickers = info.stickers.map (fun l => l.map renameSticker) ∧
      (∀ stk : Sticker, (renameSticker stk).stickerId = stk.sticker_id ∧
          (renameSticker stk).sticker_id = none ∧
          (renameSticker stk).wear = stk.wear) ∧
      out.iteminfo.a = some cur.a ∧ out.iteminfo.d = some cur.d ∧
      out.iteminfo.s = some cur.s ∧ out.iteminfo.m = some cur.m ∧
      out.delay = max 0 (s.request_delay - (now - cur.time)) := by
  have hguard : ¬(¬st.hasResolve ∨ st.currentRequest = none) := by
    simp [hres, hcur]
  have heq : handleInspectResponse s now st info
      = ({ st with
            ttlArmed := false
            hasResolve := false
            currentRequest := none
            activeRequests := st.activeRequests - 1
            awaitingDelay := true },
         some (processItemData cur
           (if s.request_delay - (now - cur.time) < 0 then 0
            else s.request_delay - (now - cur.time)) info)) := by
    unfold handleInspectResponse
    rw [if_neg hguard, hcur]
    simp [hid]
  refine ⟨_, _, heq, rfl, rfl, rfl, ?_, rfl, ?_, rfl, rfl, rfl, rfl, ?_⟩
  · intro hps
    simp [processItemData, hps]
  · intro stk
    exact ⟨rfl, rfl, rfl⟩
  · exact ite_neg_max _

/-- C6 witness: a matching response for asset `10` is produced. -/
theorem response_shape_witness :
    (handleInspectResponse ⟨1000, 30000, 5⟩ 600
        ⟨true, true, false, true, some ⟨"76561198", "10", "333", "0", 100⟩,
          true, false, 1, [], 100⟩
        ⟨"10", none, none, none, none, none, some ((1 : ℚ) / 2), none, none,
          none⟩).2 ≠ none := by
  obtain ⟨st', out, heq, -⟩ := response_shape ⟨1000, 30000, 5⟩ 600
    ⟨true, true, false, true, some ⟨"76561198", "10", "333", "0", 100⟩,
      true, false, 1, [], 100⟩
    ⟨"76561198", "10", "333", "0", 100⟩
    ⟨"10", none, none, none, none, none, some ((1 : ℚ) / 2), none, none, none⟩
    rfl rfl rfl
  rw [heq]
  simp

/-- C7: an `inspectItemInfo` event arriving with no outstanding request,
or whose `itemid` differs from the current request's asset id, is dropped
silently: nothing is resolved, nothing is rejected, and the bot state is
unchanged; only a matching `itemid` can resolve the pending inspect. -/
theorem mismatched_response_dropped (s : Settings) (now : ℤ) (st : BotS)
    (info : ItemInfo) :
    ((st.hasResolve = false ∨ st.currentRequest = none) →
        handleInspectResponse s now st info = (st, none)) ∧
    (∀ cur, st.currentRequest = some cur → info.itemid ≠ cur.a →
        handleInspectResponse s now st info = (st, none)) := by
  constructor
  · intro h
    have hguard : ¬st.hasResolve ∨ st.currentRequest = none := by
      rcases h with h | h
      · exact Or.inl (by simp [h])
      · exact Or.inr h
    unfold handleInspectResponse
    rw [if_pos hguard]
  · intro cur hcur hid
    by_cases hres : st.hasResolve
    · have hguard : ¬(¬st.hasResolve ∨ st.currentRequest = none) := by
        simp [hres, hcur]
      unfold handleInspectResponse
      rw [if_neg hguard, hcur]
      simp [hid]
    · unfold handleInspectResponse
      rw [if_pos (Or.inl hres)]

/-- C7 witness: with asset `10` outstanding, the event echoing `99` is
dropped and the state is unchanged (scenario S7 of the spec). -/
theorem mismatched_response_dropped_witness :
    handleInspectResponse ⟨1000, 30000, 5⟩ 600
        ⟨true, true, false, true, some ⟨"76561198", "10", "333", "0", 100⟩,
          true, false, 1, [], 100⟩
        ⟨"99", none, none, none, none, none, none, none, none, none⟩
      = (⟨true, true, false, true, some ⟨"76561198", "10", "333", "0", 100⟩,
          true, false, 1, [], 100⟩, none) := by
  exact (mismatched_response_dropped ⟨1000, 30000, 5⟩ 600
      ⟨true, true, false, true, some ⟨"76561198", "10", "333", "0", 100⟩,
        true, false, 1, [], 100⟩
      ⟨"99", none, none, none, none, none, none, none, none, none⟩).2
    ⟨"76561198", "10", "333", "0", 100⟩ rfl (by decide)

theorem handleInspectResponse_busy (s : Settings) (now : ℤ) (st : BotS)
    (info : ItemInfo) : (handleInspectResponse s now st info).1.busy = st.busy := by
  by_cases hguard : ¬st.hasResolve ∨ st.currentRequest = none
  · unfold handleInspectResponse
    rw [if_pos hguard]
  · cases hcur : st.currentRequest with
    | none => exact absurd (Or.inr hcur) hguard
    | some cur =>
      by_cases hid : info.itemid ≠ cur.a
      · unfold handleInspectResponse
        rw [if_neg hguard, hcur]
        simp [hid]
      · unfold handleInspectResponse
        rw [if_neg hguard, hcur]
        simp [hid]

theorem stepBot_preserves (s : Settings) (st : BotS) (ev : Ev)
    (h : OneInFlight st) : OneInFlight (stepBot s st ev) := by
  obtain ⟨h1, h2, h3⟩ := h
  cases ev with
  | enqueue r => exact ⟨h1, h2, h3⟩
  | processQueue now =>
    show OneInFlight (processRequestQueue s now st)
    by_cases hg1 : st.isShuttingDown ∨ st.busy ∨ ¬st.ready ∨ st.requestQueue = []
    · unfold processRequestQueue
      rw [if_pos hg1]
      exact ⟨h1, h2, h3⟩
    · have hbusy : st.busy = false := by
        rcases hb : st.busy
        · rfl
        · exact absurd (Or.inr (Or.inl (by simp [hb]))) hg1
      obtain ⟨hcnone, hafalse⟩ := h2 hbusy
      by_cases hg2 : s.max_concurrent_requests ≤ st.activeRequests
      · unfold processRequestQueue
        rw [if_neg hg1, if_pos hg2]
        exact ⟨h1, h2, h3⟩
      · by_cases hg3 : now - st.lastRequestTime < s.request_delay
        · unfold processRequestQueue
          rw [if_neg hg1, if_neg hg2, if_pos hg3]
          exact ⟨h1, h2, h3⟩
        · cases hq : st.requestQueue with
          | nil =>
            unfold processRequestQueue
            rw [if_neg hg1, if_neg hg2, if_neg hg3, hq]
            exact ⟨h1, h2, h3⟩
          | cons r rest =>
            unfold processRequestQueue
            rw [if_neg hg1, if_neg hg2, if_neg hg3, hq]
            refine ⟨by simp, ?_, ?_⟩
            · intro hb
              simp at hb
            · intro ha
              exact absurd (hafalse ▸ ha) (by simp)
  | gcResponse now info =>
    show OneInFlight (handleInspectResponse s now st info).1
    by_cases hguard : ¬st.hasResolve ∨ st.currentRequest = none
    · unfold handleInspectResponse
      rw [if_pos hguard]
      exact ⟨h1, h2, h3⟩
    · cases hcur : st.currentRequest with
      | none => exact absurd (Or.inr hcur) hguard
      | some cur =>
        unfold handleInspectResponse
        rw [if_neg hguard, hcur]
        split
        · exact ⟨h1, h2, h3⟩
        · split
          · exact ⟨h1, h2, h3⟩
          · refine ⟨by simp, ?_, fun _ => rfl⟩
            intro hb
            exact absurd ((h2 hb).1.symm.trans hcur) (by simp)
  | delayElapsed =>
    by_cases ha : st.awaitingDelay
    · show OneInFlight (if st.awaitingDelay then
        { st with busy := false, awaitingDelay := false } else st)
      rw [if_pos ha]
      exact ⟨h1, fun _ => ⟨h3 ha, rfl⟩, fun hc => absurd hc (by simp)⟩
    · show OneInFlight (if st.awaitingDelay then
        { st with busy := false, awaitingDelay := false } else st)
      rw [if_neg ha]
      exact ⟨h1, h2, h3⟩
  | requestError =>
    show OneInFlight (handleRequestError st)
    by_cases hg : st.hasResolve ∧ st.currentRequest.isSome
    · unfold handleRequestError
      rw [if_pos hg]
      refine ⟨by simp, ?_, fun _ => rfl⟩
      intro _
      refine ⟨rfl, ?_⟩
      cases hA : st.awaitingDelay
      · rfl
      · exfalso
        have hnone := h3 hA
        rw [hnone] at hg
        simp at hg
    · unfold handleRequestError
      rw [if_neg hg]
      exact ⟨h1, h2, h3⟩
  | gcConnected => exact ⟨h1, h2, h3⟩
  | gcDisconnected => exact ⟨h1, h2, h3⟩

theorem foldl_stepBot_inv (s : Settings) (evs : List Ev) :
    ∀ st : BotS, OneInFlight st → OneInFlight (evs.foldl (stepBot s) st) := by
  induction evs with
  | nil => exact fun st h => h
  | cons e es ih => exact fun st h => ih _ (stepBot_preserves s st e h)

theorem initBot_inv : OneInFlight initBot := by
  refine ⟨rfl, fun _ => ⟨rfl, rfl⟩, fun hc => absurd hc (by simp [initBot])⟩

theorem processQueue_noop_of_outstanding (s : Settings) (now : ℤ) (st : BotS)
    (h : OneInFlight st) (hcur : st.currentRequest ≠ none) :
    processRequestQueue s now st = st := by
  have hbusy : st.busy = true := by
    cases hb : st.busy
    · exact absurd (h.2.1 hb).1 hcur
    · rfl
  unfold processRequestQueue
  rw [if_pos (Or.inr (Or.inl (by simp [hbusy])))]

theorem busy_cleared_only_at_terminal (s : Settings) (st : BotS) (ev : Ev)
    (h : OneInFlight st) (hb : st.busy = true)
    (hb' : (stepBot s st ev).busy = false) :
    (ev = Ev.delayElapsed ∧ st.awaitingDelay = true ∧ st.currentRequest = none) ∨
    (ev = Ev.requestError ∧ st.hasResolve = true ∧ st.currentRequest ≠ none) := by
  cases ev with
  | enqueue r =>
    exfalso
    rw [show (stepBot s st (Ev.enqueue r)).busy = st.busy from rfl, hb] at hb'
    cases hb'
  | processQueue now =>
    exfalso
    have hnoop : processRequestQueue s now st = st := by
      unfold processRequestQueue
      rw [if_pos (Or.inr (Or.inl (by simp [hb])))]
    rw [show stepBot s st (Ev.processQueue now) = processRequestQueue s now st from rfl,
      hnoop, hb] at hb'
    cases hb'
  | gcResponse now info =>
    exfalso
    rw [show stepBot s st (Ev.gcResponse now info)
        = (handleInspectResponse s now st info).1 from rfl] at hb'
    rw [handleInspectResponse_busy, hb] at hb'
    cases hb'
  | delayElapsed =>
    by_cases ha : st.awaitingDelay
    · exact Or.inl ⟨rfl, ha, h.2.2 ha⟩
    · exfalso
      rw [show stepBot s st Ev.delayElapsed = (if st.awaitingDelay then
          { st with busy := false, awaitingDelay := false } else st) from rfl,
        if_neg ha, hb] at hb'
      cases hb'
  | requestError =>
    by_cases hg : st.hasResolve ∧ st.currentRequest.isSome
    · refine Or.inr ⟨rfl, hg.1, ?_⟩
      intro hcontr
      rw [hcontr] at hg
      simp at hg
    · exfalso
      rw [show stepBot s st Ev.requestError = handleRequestError st from rfl] at hb'
      unfold handleRequestError at hb'
      rw [if_neg hg, hb] at hb'
      cases hb'
  | gcConnected =>
    exfalso
    rw [show (stepBot s st Ev.gcConnected).busy = st.busy from rfl, hb] at hb'
    cases hb'
  | gcDisconnected =>
    exfalso
    rw [show (stepBot s st Ev.gcDisconnected).busy = st.busy from rfl, hb] at hb'
    cases hb'

/-- C8: in every reachable dispatcher state the one-in-flight discipline
holds; while a request is outstanding `processRequestQueue` is a no-op
(dispatch N+1 cannot start before N terminates); and `busy` is cleared
only by the post-response delay elapsing after the response was received,
or by `handleRequestError` terminating the outstanding request. -/
theorem one_inflight (s : Settings) (evs : List Ev) :
    OneInFlight (runBot s evs) ∧
    (∀ now, (runBot s evs).currentRequest ≠ none →
        processRequestQueue s now (runBot s evs) = runBot s evs) ∧
    (∀ ev, (runBot s evs).busy = true → (stepBot s (runBot s evs) ev).busy = false →
        (ev = Ev.delayElapsed ∧ (runBot s evs).awaitingDelay = true ∧
            (runBot s evs).currentRequest = none) ∨
        (ev = Ev.requestError ∧ (runBot s evs).hasResolve = true ∧
            (runBot s evs).currentRequest ≠ none)) := by
  have hinv : OneInFlight (runBot s evs) :=
    foldl_stepBot_inv s evs initBot initBot_inv
  exact ⟨hinv,
    fun now hcur => processQueue_noop_of_outstanding s now _ hinv hcur,
    fun ev hb hb' => busy_cleared_only_at_terminal s _ ev hinv hb hb'⟩

/-- C8 witness: after a dispatch, a further `processRequestQueue` tick is
a no-op while the request is outstanding. -/
theorem one_inflight_witness :
    processRequestQueue ⟨10, 30000, 5⟩ 99
        (runBot ⟨10, 30000, 5⟩ [Ev.gcConnected,
          Ev.enqueue ⟨"76561198", "10", "333", "0", 0⟩, Ev.processQueue 100])
      = runBot ⟨10, 30000, 5⟩ [Ev.gcConnected,
          Ev.enqueue ⟨"76561198", "10", "333", "0", 0⟩, Ev.processQueue 100] := by
  exact (one_inflight ⟨10, 30000, 5⟩ [Ev.gcConnected,
      Ev.enqueue ⟨"76561198", "10", "333", "0", 0⟩, Ev.processQueue 100]).2.1 99
    (by decide)

end Bot

end Inspect
